import Mathlib

set_option maxRecDepth 8000

/-!
A shallow embedding of the embedded-conductor (object) subsystem of PINC
(`src/object.c`), with theorems settling claims C1-C10 about it.

Conventions used throughout:
* Grid node values (the object map, charge and potential grids) are modelled
  over `ℚ`; the comparisons the code performs on them (`v > a+0.5`,
  `v < a+1.5`, `v > 0.5`) are exact on the small integral tags involved, so
  rational semantics agrees with the double semantics of the source for the
  properties at stake.  Where a claim speaks of exact real arithmetic the
  definitions are polymorphic over a `Field`.
* Objects are indexed 0-based as in the C loops (`for a = 0; a < nObjects`):
  block `a` of a lookup table corresponds to map tag `a + 1`.
* MPI collectives are modelled by their combined effect: an all-reduce(SUM)
  of per-rank partial buffers is the sum over ranks of the per-rank
  contributions, an all-reduce(MAX) is the maximum over the ranks' values.
-/

/-- One physical axis of a PINC grid: ghost layers below (`nGhostLayers[d]`),
true size (`trueSize[d]`), ghost layers above (`nGhostLayers[rank+d]`). -/
structure Axis where
  gBefore : ℕ
  tSize : ℕ
  gAfter : ℕ

/-- Full extent of an axis including ghost layers (`size[d]`). -/
def axSize (ax : Axis) : ℕ := ax.gBefore + ax.tSize + ax.gAfter

/-- Product of the axis extents of a list of axes; for a descending axis list
`[az, ay, ax]` of a scalar grid this is the node count `sizeProd[rank]`, and
the product over a tail is the stride `sizeProd[d]` of the head axis. -/
def axesProd : List Axis → ℕ
  | [] => 1
  | ax :: rest => axSize ax * axesProd rest

/-- The recursive ghost test `oGhost` of `object.c` (lines 84-100).  It walks
parallel `(trueSize, sizeProd)` pairs downward from index `rank-1`; at a level
whose stride is 1 it tests `node > trueSize || node < 1`, otherwise it tests
`node < sizeProd || node > sizeProd*(trueSize+1)`, reduces `node` modulo the
stride and recurses.  The `ghost` flag is only ever set, never cleared, hence
the disjunction.  The `nGhostLayers` arguments of the C function are never
read by it, so they do not appear here. -/
def oGhost (node : ℕ) : List (ℕ × ℕ) → Bool
  | [] => false
  | (ts, sp) :: rest =>
    if sp = 1 then decide (node > ts) || decide (node < 1)
    else (decide (node < sp) || decide (node > sp * (ts + 1))) || oGhost (node % sp) rest

/-- The `(trueSize[k], sizeProd[k])` pairs that `isGhostNode` hands to
`oGhost`, for a scalar grid with the given descending axis list (the
component dimension has extent 1, so `sizeProd[1] = 1` is the innermost
stride, matching `axesProd [] = 1`). -/
def ghostPairs : List Axis → List (ℕ × ℕ)
  | [] => []
  | ax :: rest => (ax.tSize, axesProd rest) :: ghostPairs rest

/-- `isGhostNode` of `object.c` (lines 70-82): runs `oGhost` on the grid's
`(trueSize, sizeProd)` arrays starting from the outermost dimension. -/
def isGhostNode (axes : List Axis) (node : ℕ) : Bool := oGhost node (ghostPairs axes)

/-- Coordinates of a node along a descending axis list, paired with the axis:
the head coordinate is `node / stride`, the rest are the coordinates of
`node % stride`. -/
def coordsSpec : List Axis → ℕ → List (Axis × ℕ)
  | [], _ => []
  | ax :: rest, node =>
    (ax, node / axesProd rest) :: coordsSpec rest (node % axesProd rest)

/-- Specification-side ghost predicate, following the spec sentence "a node is
a ghost node iff any of its coordinates lies inside the ghost band on either
side": some coordinate is `< gBefore` or `≥ gBefore + tSize`. -/
def inGhostBand (axes : List Axis) (node : ℕ) : Bool :=
  (coordsSpec axes node).any
    (fun p => decide (p.2 < p.1.gBefore) || decide (p.1.gBefore + p.1.tSize ≤ p.2))

/-- A scalar 3D PINC grid as consumed by the object subsystem: the three
physical axes (descending order `z, y, x`, mirroring `sizeProd[3..1]`), the
object-map value array (`obj->domain->val`, a total function so that the
stencil offsets are always defined), and the object count `obj->nObjects`. -/
structure ObjGrid where
  az : Axis
  ay : Axis
  ax : Axis
  val : Int → ℚ
  nObjects : ℕ

/-- Descending axis list of the grid. -/
def ObjGrid.axesDesc (g : ObjGrid) : List Axis := [g.az, g.ay, g.ax]

/-- Total number of nodes, `sizeProd[rank]`. -/
def ObjGrid.total (g : ObjGrid) : ℕ := axesProd g.axesDesc

/-- Stride `sizeProd[1]`; for a scalar grid the component dimension has
extent 1, so this stride is 1 (one step in x). -/
def ObjGrid.sp1 (_ : ObjGrid) : Int := 1

/-- Stride `sizeProd[2]` (one step in y). -/
def ObjGrid.sp2 (g : ObjGrid) : Int := (axSize g.ax : Int)

/-- Stride `sizeProd[3]` (one step in z). -/
def ObjGrid.sp3 (g : ObjGrid) : Int := ((axSize g.ax * axSize g.ay : ℕ) : Int)

/-- Ghost test of the grid, via `isGhostNode`. -/
def ObjGrid.ghost (g : ObjGrid) (b : ℕ) : Bool := isGhostNode g.axesDesc b

/-- The tag test of the surface scan: `val > a+0.5 && val < a+1.5`
(`object.c` lines 462-469), i.e. the value rounds to tag `a+1` where `a` is
the 0-based object loop index. -/
def tagIs (v : ℚ) (a : ℕ) : Bool :=
  decide ((a : ℚ) + 1/2 < v) && decide (v < (a : ℚ) + 3/2)

/-- The count `d` of `oFindObjectSurfaceNodes`: how many of the eight sampled
nodes at linear offsets `b`, `b−sizeProd[3]`, `b−sizeProd[1]`,
`b−sizeProd[1]−sizeProd[3]`, `b−sizeProd[2]`, `b−sizeProd[2]−sizeProd[3]`,
`b−sizeProd[2]−sizeProd[1]`, `b−sizeProd[2]−sizeProd[1]−sizeProd[3]`
(`myNB[1..8]`) carry tag `a+1`. -/
def oSurfD (g : ObjGrid) (a b : ℕ) : ℕ :=
  let nb1 : Int := (b : Int)
  let nb2 := nb1 - g.sp3
  let nb3 := nb1 - g.sp1
  let nb4 := nb1 - g.sp1 - g.sp3
  let nb5 := nb1 - g.sp2
  let nb6 := nb1 - g.sp2 - g.sp3
  let nb7 := nb1 - g.sp2 - g.sp1
  let nb8 := nb1 - g.sp2 - g.sp1 - g.sp3
  (if tagIs (g.val nb1) a then 1 else 0) + (if tagIs (g.val nb2) a then 1 else 0) +
  (if tagIs (g.val nb3) a then 1 else 0) + (if tagIs (g.val nb4) a then 1 else 0) +
  (if tagIs (g.val nb5) a then 1 else 0) + (if tagIs (g.val nb6) a then 1 else 0) +
  (if tagIs (g.val nb7) a then 1 else 0) + (if tagIs (g.val nb8) a then 1 else 0)

/-- Acceptance test of both passes of `oFindObjectSurfaceNodes`: the node is
not a ghost node and `d < 7.5 && d > 0` — on the integer count `d` this is
`0 < d < 8`.  The commented-out own-tag test `val[myNB[0]] > a+0.5` of the
source is (faithfully) absent. -/
def onSurface (g : ObjGrid) (a b : ℕ) : Bool :=
  !g.ghost b && (decide (0 < oSurfD g a b) && decide (oSurfD g a b < 8))

/-- First (counting) pass of `oFindObjectSurfaceNodes` for object `a`
(lines 447-488): scan all nodes in order, incrementing a counter on each
accepted node. -/
def lookupSurfaceCount (g : ObjGrid) (a : ℕ) : ℕ :=
  (List.range g.total).foldl (fun c b => if onSurface g a b then c + 1 else c) 0

/-- Offset table `lookupSurfaceOffset` after `alCumSum`: `SO a` is the sum of
the counts of the objects before `a`. -/
def lookupSurfaceOffset (g : ObjGrid) (a : ℕ) : ℕ :=
  ∑ b in Finset.range a, lookupSurfaceCount g b

/-- Second (fill) pass of `oFindObjectSurfaceNodes` for object `a`
(lines 502-537): block `a` of `obj->lookupSurface`, the accepted nodes in
scan order. -/
def lookupSurface (g : ObjGrid) (a : ℕ) : List ℕ :=
  (List.range g.total).foldl (fun l b => if onSurface g a b then l ++ [b] else l) []

/-- The C cast `(int)(v + 0.5)` used on the object map (truncation towards
zero equals `⌊v + 1/2⌋` on the guarded positive values). -/
def tagOfVal (v : ℚ) : Int := Int.floor (v + 1/2)

/-- Acceptance test of `oFillLookupTables` for block `a`: `val[i] > 0.5` and
the rounded tag is `a+1`.  The ghost-node exclusion visible as a comment in
the source (`//&& !isGhostNode(...)`) is (faithfully) absent. -/
def interiorAccept (g : ObjGrid) (a : ℕ) (i : ℕ) : Bool :=
  decide ((1 : ℚ)/2 < g.val i) && decide (tagOfVal (g.val i) = (a : Int) + 1)

/-- Block `a` of `obj->lookupInterior` built by `oFillLookupTables`
(lines 103-147): all node indices (ghost nodes included) whose map value
exceeds 0.5 and rounds to tag `a+1`, in scan order. -/
def lookupInterior (g : ObjGrid) (a : ℕ) : List ℕ :=
  (List.range g.total).foldl (fun l i => if interiorAccept g a i then l ++ [i] else l) []

/-- The matching double loop of `oCollectObjectCharge` (lines 739-756): a
particle whose cell lower-corner linear index is `p` is attributed iff some
object block of the interior lookup contains `p`. -/
def oCollectMatch (g : ObjGrid) (p : ℕ) : Bool :=
  (List.range g.nObjects).any (fun a => (lookupInterior g a).any (fun q => q == p))

/-- Error kinds of the specification's error-handling design. -/
inductive PincError
  | CONFIG
  | NUMERICAL
  | COMM
  | INTERNAL
deriving DecidableEq

/-- The per-rank object-count loop of `oAlloc` (lines 1433-1442):
`nObjects` starts at 0 and is replaced by `(int)(val[i]+0.5)` whenever
`val[i] > nObjects`. -/
def oAllocNObjectsLocal (g : ObjGrid) : Int :=
  (List.range g.total).foldl
    (fun n (i : ℕ) => if (n : ℚ) < g.val i then tagOfVal (g.val i) else n) 0

/-- The global object count: `MPI_Allreduce(..., MPI_MAX, ...)` of the
per-rank counts (line 1444), one `ObjGrid` per rank. -/
def oAllocNObjects (gs : List ObjGrid) : Int :=
  gs.foldl (fun m g => max m (oAllocNObjectsLocal g)) 0

/-- Continuation of `oAlloc` after the object count is known: the source
contains no check of `nObjects` (in particular none for `nObjects = 0`), so
this model always proceeds to build the interior and surface lookup tables
(shown for the first rank) and never returns an error. -/
def oAllocModel (gs : List ObjGrid) :
    Except PincError (Int × List (List ℕ) × List (List ℕ)) :=
  let n := oAllocNObjects gs
  match gs with
  | [] => Except.ok (n, [], [])
  | g :: _ =>
    Except.ok (n, (List.range n.toNat).map (fun a => lookupInterior g a),
      (List.range n.toNat).map (fun a => lookupSurface g a))

/-- Inputs of the charge-placement loop of `oComputeCapacitanceMatrix`:
process count `P` (`mpiSize`), this process's rank, the flat surface lookup
`lookupSurf`, its offsets `SO`, and the flat global-surface offset table
`nodCorGlob` (laid out as `nodCorGlob[a*(P+1)+r]`). -/
structure CapCfg where
  P : ℕ
  rank : ℕ
  lookupSurf : ℕ → ℕ
  SO : ℕ → ℕ
  nodCorGlob : ℕ → ℕ

/-- Surface-node count of object `a` on rank `j`:
`nodCorGlob[a*(P+1)+j+1] - nodCorGlob[a*(P+1)+j]` as a signed value
(the C arithmetic is on `long int`). -/
def CapCfg.cnt (c : CapCfg) (a j : ℕ) : Int :=
  (c.nodCorGlob (a * (c.P + 1) + j + 1) : Int) - (c.nodCorGlob (a * (c.P + 1) + j) : Int)

/-- The `while (cnt == 0) j++` skip over rankless cores (line 250), with fuel
bounding the walk to the extent of the offset table. -/
def capSkipEmpty (c : CapCfg) (a : ℕ) : ℕ → ℕ → ℕ
  | 0, j => j
  | fuel + 1, j => if c.cnt a j = 0 then capSkipEmpty c a fuel (j + 1) else j

/-- The post-column advance `inode++; while (inode > cnt-1) { j++; inode=0; }`
(lines 278-282), again fuel-bounded. -/
def capAdvance (c : CapCfg) (a : ℕ) : ℕ → ℕ × ℕ → ℕ × ℕ
  | 0, s => s
  | fuel + 1, (j, inode) =>
    if (inode : Int) > c.cnt a j - 1 then capAdvance c a fuel (j + 1, 0) else (j, inode)

/-- One iteration of the column loop of `oComputeCapacitanceMatrix`
(lines 244-284) as it acts on the charge grid `rhoCap`: skip empty ranks;
on the owning rank set `rho[lookupSurf[SO[a] + inode]] = 1` (line 256); the
Poisson solve reads `rho` and writes `phi` only; on the owning rank reset
`rho[lookupSurf[inode]] = 0` (line 269 — note the missing `SO[a]` offset);
the column fill reads `phi` only; then advance `(j, inode)`. -/
def oComputeCapColumnStep (c : CapCfg) (a : ℕ) (s : ℕ × ℕ × (ℕ → ℚ)) :
    ℕ × ℕ × (ℕ → ℚ) :=
  let j := capSkipEmpty c a (c.P + 1) s.1
  let inode := s.2.1
  let rho := s.2.2
  let rho1 := if c.rank = j then
    Function.update rho (c.lookupSurf (c.SO a + inode)) 1 else rho
  let rho2 := if c.rank = j then
    Function.update rho1 (c.lookupSurf inode) 0 else rho1
  let s2 := capAdvance c a (c.P + 1) (j, inode + 1)
  (s2.1, s2.2, rho2)

/-- The full column loop for object `a` starting from `j = 0, inode = 0`
(lines 227-229, 244), returning the final state of the charge grid. -/
def oComputeCapObjectLoop (c : CapCfg) (a : ℕ) (rho : ℕ → ℚ) : ℕ → ℚ :=
  ((List.range (c.nodCorGlob (a * (c.P + 1) + c.P))).foldl
    (fun s _ => oComputeCapColumnStep c a s) (0, 0, rho)).2.2

/-- The outer object loop of `oComputeCapacitanceMatrix` as it acts on the
charge grid. -/
def oComputeCapLoop (c : CapCfg) (n : ℕ) (rho : ℕ → ℚ) : ℕ → ℚ :=
  (List.range n).foldl (fun r a => oComputeCapObjectLoop c a r) rho

/-- Global surface-node count of object `a`:
`nodCorGlob[a*(size+1)+size]` (line 232 and line 363). -/
def capTotSNGlob (nodCorGlob : ℕ → ℕ) (P a : ℕ) : ℕ := nodCorGlob (a * (P + 1) + P)

/-- Return value of `oGatherSurfaceNodes` (lines 175-179): the summed global
surface counts of all objects. -/
def capMatrixAllSize (nodCorGlob : ℕ → ℕ) (P n : ℕ) : ℕ :=
  (List.range n).foldl (fun s a => s + capTotSNGlob nodCorGlob P a) 0

/-- Number of doubles `oAlloc` allocates for the capacitance store
(line 1462): `capMatrixAllSize * capMatrixAllSize`. -/
def capStoreAllocSize (nodCorGlob : ℕ → ℕ) (P n : ℕ) : ℕ :=
  capMatrixAllSize nodCorGlob P n * capMatrixAllSize nodCorGlob P n

/-- Flat store index written by `oComputeCapacitanceMatrix` (line 309):
`capMatrixAll[a*totSNGlob*totSNGlob + l]` with `l < totSNGlob²`. -/
def capStoreWriteIdx (nodCorGlob : ℕ → ℕ) (P a l : ℕ) : ℕ :=
  a * capTotSNGlob nodCorGlob P a * capTotSNGlob nodCorGlob P a + l

/-- Flat store index read by `oApplyCapacitanceMatrix` (lines 378, 413):
`capMatrixAll[a*totSNGlob*totSNGlob + totSNGlob*j + i]`. -/
def capStoreReadIdx (nodCorGlob : ℕ → ℕ) (P a j i : ℕ) : ℕ :=
  a * capTotSNGlob nodCorGlob P a * capTotSNGlob nodCorGlob P a +
    capTotSNGlob nodCorGlob P a * j + i

/-- The per-object inverse surface count of `oCollectObjectCharge`
(line 697): `invNrSurfNod[a] = 1.0 / nodCorGlob[(a+1)*size]` — note the flat
index `(a+1)*size`, which equals the object's total `a*(size+1)+size` only
for `a = 0`.  (In `ℚ`, division by zero yields 0; in the C doubles it yields
infinity — either way not the claimed `1/Tₐ`.) -/
def invNrSurfNod (nodCorGlob : ℕ → ℕ) (P a : ℕ) : ℚ :=
  1 / (nodCorGlob ((a + 1) * P) : ℚ)

/-- The deposit loop of `oCollectObjectCharge` (lines 772-783): for each
object `a` and each local surface entry `b ∈ [SO a, SO (a+1))`, add
`chargeCounter[a] * invNrSurfNod[a]` to `rhoObj` at node `lookupSurf b`. -/
def oCollectDeposit (lookupSurf SO nodCorGlob : ℕ → ℕ) (P n : ℕ)
    (chargeCounter : ℕ → ℚ) (rhoObj : ℕ → ℚ) : ℕ → ℚ :=
  (List.range n).foldl (fun ρ a =>
    (List.range' (SO a) (SO (a + 1) - SO a)).foldl
      (fun ρ2 b => Function.update ρ2 (lookupSurf b)
        (ρ2 (lookupSurf b) + chargeCounter a * invNrSurfNod nodCorGlob P a)) ρ) rhoObj

/-- Rank `r`'s contribution to `capMatrixPhiSum` in `oApplyCapacitanceMatrix`
(lines 375-381): `Σ_{i<T} Σ_{j∈[g r, g (r+1))} K[j,i] · phiS j`, where `K` is
the stored inverse capacitance matrix of the object and `phiS j` the
potential at global surface index `j` on its owning rank. -/
def capPhiSumLocal {α : Type} [Field α] (K : ℕ → ℕ → α) (phiS : ℕ → α)
    (T : ℕ) (g : ℕ → ℕ) (r : ℕ) : α :=
  ∑ i in Finset.range T, ∑ j in Finset.Ico (g r) (g (r + 1)), K j i * phiS j

/-- The floating potential `capMatrixPhiSum` after scaling by
`capMatrixSum[a] = S` and the all-reduce(SUM) (lines 395-397): each rank
scales its partial sum by `S` and the reduction adds the scaled partials. -/
def capPhiC {α : Type} [Field α] (K : ℕ → ℕ → α) (phiS : ℕ → α)
    (T P : ℕ) (S : α) (g : ℕ → ℕ) : α :=
  ∑ r in Finset.range P, S * capPhiSumLocal K phiS T g r

/-- The all-reduced `deltaPhi` buffer (lines 403-408): the buffer is zeroed,
each rank writes `phic − phiS j` into its own slots `j ∈ [g r, g (r+1))`, and
the all-reduce(SUM) adds the per-rank buffers. -/
def oDeltaPhi {α : Type} [Field α] (K : ℕ → ℕ → α) (phiS : ℕ → α)
    (T P : ℕ) (S : α) (g : ℕ → ℕ) (j : ℕ) : α :=
  ∑ r in Finset.range P,
    if j ∈ Finset.Ico (g r) (g (r + 1)) then capPhiC K phiS T P S g - phiS j else 0

/-- The all-reduced `rhoCorr` buffer (lines 411-417):
`rhoCorr[i] = Σ_r Σ_{j∈[g r, g (r+1))} K[j,i] · deltaPhi[j]`. -/
def oRhoCorr {α : Type} [Field α] (K : ℕ → ℕ → α) (phiS : ℕ → α)
    (T P : ℕ) (S : α) (g : ℕ → ℕ) (i : ℕ) : α :=
  ∑ r in Finset.range P, ∑ j in Finset.Ico (g r) (g (r + 1)),
    K j i * oDeltaPhi K phiS T P S g j

/-- The combined (all ranks) effect of the final correction loop
(lines 420-423) on the distributed charge grid: every rank adds
`rhoCorr[j]` at its surface node `tgt j` for its own `j ∈ [g r, g (r+1))`. -/
def capApplyCorr {α : Type} [Field α] (tgt : ℕ → ℕ) (v : ℕ → α)
    (g : ℕ → ℕ) (P : ℕ) (ρ : ℕ → α) : ℕ → α :=
  (List.range P).foldl (fun ρ1 r =>
    (List.range' (g r) (g (r + 1) - g r)).foldl
      (fun ρ2 j => Function.update ρ2 (tgt j) (ρ2 (tgt j) + v j)) ρ1) ρ

/-- The two grids `oApplyCapacitanceMatrix` receives: the mutable charge grid
`rho` and the `const` potential grid `phi` of this rank. -/
structure OState (α : Type) where
  rho : ℕ → α
  phi : ℕ → α

/-- Static inputs of `oApplyCapacitanceMatrix` on one rank: object count `N`,
process count `P`, this rank, the offset table `capMatrixAllOffsets`
(= `nodCorGlob`), the surface lookup offsets `SO`, the flat surface lookup,
the flat capacitance store and the stored `capMatrixSum` scalars. -/
structure ApplyCfg (α : Type) where
  N : ℕ
  P : ℕ
  rank : ℕ
  nodCorGlob : ℕ → ℕ
  SO : ℕ → ℕ
  lookupSurf : ℕ → ℕ
  capMatrixAll : ℕ → α
  capMatrixSum : ℕ → α

/-- Cumulative global surface offsets of object `a`:
`g a r = nodCorGlob[a*(P+1)+r]` (lines 363-365). -/
def ApplyCfg.g {α : Type} (c : ApplyCfg α) (a r : ℕ) : ℕ :=
  c.nodCorGlob (a * (c.P + 1) + r)

/-- Global surface total `totSNGlob` of object `a`. -/
def ApplyCfg.T {α : Type} (c : ApplyCfg α) (a : ℕ) : ℕ := c.g a c.P

/-- Matrix accessor of object `a`:
`capMatrixAll[a*T*T + T*j + i]` (lines 378, 413). -/
def ApplyCfg.K {α : Type} (c : ApplyCfg α) (a j i : ℕ) : α :=
  c.capMatrixAll (a * c.T a * c.T a + c.T a * j + i)

/-- Charge-grid node written for global surface index `j` of object `a` on
this rank: `lookupSurf[SO[a] + j - beginIndex]` (line 421). -/
def ApplyCfg.target {α : Type} (c : ApplyCfg α) (a j : ℕ) : ℕ :=
  c.lookupSurf (c.SO a + j - c.g a c.rank)

/-- `oApplyCapacitanceMatrix` (lines 342-430) as it acts on this rank's two
grids: for each object the correction `rhoCorr[j]` is added to `rho` at
`target a j` for the rank's own `j ∈ [g a rank, g a (rank+1))`; `phi` is
only read.  `phiS a j` is the (all-reduce-gathered) potential at global
surface index `j` of object `a`. -/
def oApplyCapacitanceMatrixModel {α : Type} [Field α] (c : ApplyCfg α)
    (phiS : ℕ → ℕ → α) (st : OState α) : OState α :=
  { rho := (List.range c.N).foldl (fun ρ a =>
      (List.range' (c.g a c.rank) (c.g a (c.rank + 1) - c.g a c.rank)).foldl
        (fun ρ2 j => Function.update ρ2 (c.target a j)
          (ρ2 (c.target a j) +
            oRhoCorr (c.K a) (phiS a) (c.T a) c.P (c.capMatrixSum a) (c.g a) j)) ρ)
      st.rho,
    phi := st.phi }

/-- Concrete grid for C2: scalar grid with `trueSize = {1,2,1,1}`
(x-extent 4, y- and z-extent 3, one ghost layer per side), a single tagged
node at linear index 17 (the non-ghost node `(x,y,z) = (1,1,1)`). -/
def g2 : ObjGrid :=
  { az := ⟨1, 1, 1⟩, ay := ⟨1, 1, 1⟩, ax := ⟨1, 2, 1⟩,
    val := fun n => if n = 17 then 1 else 0, nObjects := 1 }

/-- Concrete grid for C8: same geometry as `g2`, with tag 1 on the ghost
node 5 (as produced by the halo exchange of the object map) and on the
non-ghost node 17. -/
def g8 : ObjGrid :=
  { az := ⟨1, 1, 1⟩, ay := ⟨1, 1, 1⟩, ax := ⟨1, 2, 1⟩,
    val := fun n => if n = 5 then 1 else if n = 17 then 1 else 0, nObjects := 1 }

/-- Concrete grid for C7: a 3×3×3 scalar grid whose object map is zero
everywhere (no objects in the input file). -/
def gz : ObjGrid :=
  { az := ⟨1, 1, 1⟩, ay := ⟨1, 1, 1⟩, ax := ⟨1, 1, 1⟩,
    val := fun _ => 0, nObjects := 0 }

/-- Concrete configuration for C1: one rank, two objects with one surface
node each; the flat surface lookup is `[5, 7]` (node 5 for object 0, node 7
for object 1), offsets `SO = [0, 1, 2]`, and `nodCorGlob = [0, 1, 0, 1]`. -/
def c1cfg : CapCfg :=
  { P := 1, rank := 0,
    lookupSurf := fun k => if k = 0 then 5 else if k = 1 then 7 else 0,
    SO := fun a => a,
    nodCorGlob := fun k => [0, 1, 0, 1].getD k 0 }

/-- Offset table for C3: one rank, two objects with one surface node each
(`nodCorGlob = [0, 1, 0, 1]`, so `T₁ = nodCorGlob 1 = 1` and
`T₂ = nodCorGlob 3 = 1`). -/
def c3nod : ℕ → ℕ := fun k => [0, 1, 0, 1].getD k 0

/-- Flat surface lookup for C3 (node 5 for object 0, node 7 for object 1). -/
def c3surf : ℕ → ℕ := fun k => if k = 0 then 5 else if k = 1 then 7 else 0

/-- Collected charges for C3: a single particle of charge −1 was absorbed by
the second object. -/
def c3charge : ℕ → ℚ := fun a => if a = 1 then -1 else 0

/-- Offset table for C6's overflow input: one rank, two objects with global
surface totals `T₁ = 1` and `T₂ = 3`. -/
def c6nodA : ℕ → ℕ := fun k => [0, 1, 0, 3].getD k 0

/-- Offset table for C6's overlap input: one rank, two objects with global
surface totals `T₁ = 2` and `T₂ = 1`. -/
def c6nodB : ℕ → ℕ := fun k => [0, 2, 0, 1].getD k 0

/-- Concrete grid geometry for C9: a 5×3×3 scalar grid with two ghost layers
on each side of the x axis (`trueSize_x = 1`) and one ghost layer on each
side of y and z. -/
def axes9 : List Axis := [⟨1, 1, 1⟩, ⟨1, 1, 1⟩, ⟨2, 1, 2⟩]

/-- Concrete configuration for the C10 witness: one object with a single
surface node (node 0) owned by the single rank (`nodCorGlob = [0, 1]`, so the
rank's range for the object is `[0, 1)` and the call writes `rho` at node 0),
a 1×1 capacitance matrix and `capMatrixSum = 1`. -/
def c10cfg : ApplyCfg ℚ :=
  { N := 1, P := 1, rank := 0, nodCorGlob := fun k => [0, 1].getD k 0,
    SO := fun _ => 0, lookupSurf := fun k => k,
    capMatrixAll := fun _ => 1, capMatrixSum := fun _ => 1 }

/-- Concrete state for the C10 witness. -/
def st10 : OState ℚ := { rho := fun _ => 0, phi := fun _ => 0 }

/-! ### Helper lemmas -/

theorem bool_eq_of_iff {a b : Bool} (h : a = true ↔ b = true) : a = b := by
  cases a <;> cases b <;> simp_all

theorem axesProd_pos {axes : List Axis}
    (h : ∀ ax ∈ axes, ax.gBefore = 1 ∧ ax.gAfter = 1) : 0 < axesProd axes := by
  induction axes with
  | nil => simp [axesProd]
  | cons ax rest ih =>
    have hax := h ax (List.mem_cons_self _ _)
    have hrest : ∀ a ∈ rest, a.gBefore = 1 ∧ a.gAfter = 1 :=
      fun a ha => h a (List.mem_cons_of_mem _ ha)
    have h1 : 0 < axSize ax := by unfold axSize; omega
    exact Nat.mul_pos h1 (ih hrest)

theorem rest_nil_of_prod_one {rest : List Axis}
    (h : ∀ ax ∈ rest, ax.gBefore = 1 ∧ ax.gAfter = 1) (hp : axesProd rest = 1) :
    rest = [] := by
  cases rest with
  | nil => rfl
  | cons ax r =>
    exfalso
    have hax := h ax (List.mem_cons_self _ _)
    have hone : axSize ax = 1 := Nat.eq_one_of_mul_eq_one_right hp
    unfold axSize at hone
    omega

theorem inGhostBand_zero (ax : Axis) (rest : List Axis) (h : ax.gBefore = 1) :
    inGhostBand (ax :: rest) 0 = true := by
  simp [inGhostBand, coordsSpec, Nat.zero_div, h]

/-- C9 (amended): `isGhostNode` ignores the grid's `nGhostLayers` and tests
each coordinate against `[1, trueSize]`; on grids whose ghost-layer counts are
all one it agrees with the spec's ghost-band criterion at every node. -/
theorem isGhostNode_eq_band_unit_layers (axes : List Axis)
    (h : ∀ ax ∈ axes, ax.gBefore = 1 ∧ ax.gAfter = 1) (node : ℕ) :
    isGhostNode axes node = inGhostBand axes node := by
  induction axes generalizing node with
  | nil => rfl
  | cons ax rest ih =>
    have hax := h ax (List.mem_cons_self _ _)
    have hrest : ∀ a ∈ rest, a.gBefore = 1 ∧ a.gAfter = 1 :=
      fun a ha => h a (List.mem_cons_of_mem _ ha)
    have hRHS : inGhostBand (ax :: rest) node =
        ((decide (node / axesProd rest < ax.gBefore) ||
          decide (ax.gBefore + ax.tSize ≤ node / axesProd rest)) ||
          inGhostBand rest (node % axesProd rest)) := by
      simp [inGhostBand, coordsSpec]
    by_cases hs : axesProd rest = 1
    · have hnil : rest = [] := rest_nil_of_prod_one hrest hs
      subst hnil
      apply bool_eq_of_iff
      rw [hRHS]
      show oGhost node ((ax.tSize, axesProd []) :: ghostPairs []) = true ↔ _
      simp only [axesProd, oGhost, eq_self_iff_true, if_true, inGhostBand, coordsSpec,
        List.any_nil, Bool.or_false, Bool.or_eq_true, decide_eq_true_eq, hax.1, Nat.div_one]
      omega
    · have hpos : 0 < axesProd rest := axesProd_pos hrest
      have hIH : oGhost (node % axesProd rest) (ghostPairs rest) =
          inGhostBand rest (node % axesProd rest) := ih hrest _
      apply bool_eq_of_iff
      rw [hRHS]
      show oGhost node ((ax.tSize, axesProd rest) :: ghostPairs rest) = true ↔ _
      simp only [oGhost, if_neg hs, hIH, Bool.or_eq_true, decide_eq_true_eq, hax.1]
      constructor
      · rintro ((h1 | h1) | hB)
        · exact Or.inl (Or.inl (by rw [Nat.div_eq_of_lt h1]; omega))
        · refine Or.inl (Or.inr ?_)
          refine (Nat.le_div_iff_mul_le hpos).mpr ?_
          have hc : (1 + ax.tSize) * axesProd rest = axesProd rest * (ax.tSize + 1) := by
            ring
          rw [hc]
          omega
        · exact Or.inr hB
      · rintro ((h1 | h1) | hB)
        · refine Or.inl (Or.inl ?_)
          exact (Nat.div_eq_zero_iff hpos).mp (Nat.lt_one_iff.mp h1)
        · have h2 : (1 + ax.tSize) * axesProd rest ≤ node :=
            (Nat.le_div_iff_mul_le hpos).mp h1
          have hc : (1 + ax.tSize) * axesProd rest = axesProd rest * (ax.tSize + 1) := by
            ring
          rw [hc] at h2
          by_cases he : node = axesProd rest * (ax.tSize + 1)
          · refine Or.inr ?_
            have hm : node % axesProd rest = 0 := by
              rw [he]; exact Nat.mul_mod_right _ _
            rw [hm]
            cases rest with
            | nil => exact absurd rfl hs
            | cons ax2 r2 =>
              exact inGhostBand_zero ax2 r2 (hrest ax2 (List.mem_cons_self _ _)).1
          · exact Or.inl (Or.inr (by omega))
        · exact Or.inr hB

/-- Witness for the amended C9 theorem at a concrete unit-layer grid. -/
theorem isGhostNode_eq_band_unit_layers_w :
    isGhostNode [(⟨1, 1, 1⟩ : Axis)] 2 = inGhostBand [(⟨1, 1, 1⟩ : Axis)] 2 :=
  isGhostNode_eq_band_unit_layers [(⟨1, 1, 1⟩ : Axis)] (by decide) 2

/-- C9 counterexample: on a grid with two ghost layers per side of the x axis
(`axes9`), the node with coordinates `(x,y,z) = (1,1,1)` (linear index 21)
lies inside the x ghost band but `isGhostNode` reports it non-ghost. -/
theorem isGhostNode_wrong_for_two_layers :
    isGhostNode axes9 21 = false ∧ inGhostBand axes9 21 = true := by decide

theorem foldl_count_eq (p : ℕ → Bool) :
    ∀ (l : List ℕ) (n : ℕ),
      l.foldl (fun c b => if p b then c + 1 else c) n = n + (l.filter p).length := by
  intro l
  induction l with
  | nil => intro n; simp
  | cons x xs ih =>
    intro n
    rw [List.foldl_cons, List.filter_cons]
    by_cases h : p x
    · rw [if_pos h, if_pos h, ih]
      simp only [List.length_cons]
      omega
    · rw [if_neg h, if_neg h, ih]

theorem foldl_fill_eq (p : ℕ → Bool) :
    ∀ (l : List ℕ) (acc : List ℕ),
      l.foldl (fun r b => if p b then r ++ [b] else r) acc = acc ++ l.filter p := by
  intro l
  induction l with
  | nil => intro acc; simp
  | cons x xs ih =>
    intro acc
    rw [List.foldl_cons, List.filter_cons]
    by_cases h : p x
    · rw [if_pos h, if_pos h, ih, List.append_assoc]
      rfl
    · rw [if_neg h, if_neg h, ih]

/-- C5: `oFindObjectSurfaceNodes` records node `b` for object `a` exactly when
`b` is not a ghost node and the count `d` of the eight sampled nodes at the
prescribed linear offsets satisfies `0 < d < 8`; the fill pass records exactly
the nodes accepted by the counting pass, in the same scan order, so block `a`
is exactly filled (`SO (a+1) = SO a + |block a|`). -/
theorem surface_two_pass_exact (g : ObjGrid) (a : ℕ) :
    lookupSurface g a = (List.range g.total).filter (fun b => onSurface g a b) ∧
    lookupSurfaceOffset g (a + 1) =
      lookupSurfaceOffset g a + (lookupSurface g a).length ∧
    ∀ b : ℕ, b ∈ lookupSurface g a ↔
      b < g.total ∧ g.ghost b = false ∧ 0 < oSurfD g a b ∧ oSurfD g a b < 8 := by
  have hfill : lookupSurface g a =
      (List.range g.total).filter (fun b => onSurface g a b) := by
    unfold lookupSurface
    rw [foldl_fill_eq]
    rfl
  refine ⟨hfill, ?_, ?_⟩
  · unfold lookupSurfaceOffset
    rw [Finset.sum_range_succ, hfill]
    unfold lookupSurfaceCount
    rw [foldl_count_eq]
    simp
  · intro b
    rw [hfill, List.mem_filter, List.mem_range]
    simp [onSurface, Bool.and_eq_true, Bool.not_eq_true', decide_eq_true_eq]

/-- C2 counterexample: on the grid `g2` whose only tagged node is 17, the
fill pass records node 18 in object block 0 although node 18's own map value
is 0, i.e. its tag is not the block's tag. -/
theorem surfaceLookup_contains_untagged_node :
    18 ∈ lookupSurface g2 0 ∧ tagIs (g2.val 18) 0 = false ∧ g2.val 18 = 0 := by
  refine ⟨by with_unfolding_all decide, by with_unfolding_all decide,
    by with_unfolding_all decide⟩

/-- C2 (amended): every index stored in a Surface Lookup block refers to a
non-ghost node for which between one and seven of the eight sampled
neighbour-cell nodes carry the block's tag; the node's own tag need not equal
the block's tag. -/
theorem surfaceLookup_entries_nonghost_surface (g : ObjGrid) (a b : ℕ)
    (hb : b ∈ lookupSurface g a) :
    g.ghost b = false ∧ 0 < oSurfD g a b ∧ oSurfD g a b < 8 := by
  unfold lookupSurface at hb
  rw [foldl_fill_eq] at hb
  have h2 : b < g.total ∧ onSurface g a b = true := by simpa using hb
  have h3 := h2.2
  simp only [onSurface, Bool.and_eq_true, Bool.not_eq_true', decide_eq_true_eq] at h3
  exact h3

/-- Witness for the amended C2 theorem: node 17 of `g2` is in block 0, and
the theorem yields its non-ghost surface properties. -/
theorem surfaceLookup_entries_nonghost_surface_w :
    g2.ghost 17 = false ∧ 0 < oSurfD g2 0 17 ∧ oSurfD g2 0 17 < 8 :=
  surfaceLookup_entries_nonghost_surface g2 0 17 (by with_unfolding_all decide)

/-- C8 counterexample: on the grid `g8` (tag 1 on ghost node 5 and interior
node 17) the Interior Lookup contains the ghost node 5, and the matching loop
of `oCollectObjectCharge` does match a particle whose cell lower-corner index
is 5 — attribution is not skipped. -/
theorem interiorLookup_contains_ghost_node :
    5 ∈ lookupInterior g8 0 ∧ g8.ghost 5 = true ∧ oCollectMatch g8 5 = true := by
  refine ⟨by with_unfolding_all decide, by decide, by with_unfolding_all decide⟩

/-- C8 (amended): block `a` of the Interior Lookup contains exactly the node
indices — ghost nodes included — whose map value exceeds 0.5 and rounds to
tag `a+1`; consequently a particle is matched by `oCollectObjectCharge`
exactly when some object block (hence some tagged node, ghost or not) holds
its cell lower-corner index. -/
theorem interiorLookup_membership (g : ObjGrid) (a i : ℕ) :
    (i ∈ lookupInterior g a ↔
      i < g.total ∧ (1 : ℚ)/2 < g.val i ∧ tagOfVal (g.val i) = (a : Int) + 1) ∧
    (oCollectMatch g i = true ↔ ∃ b, b < g.nObjects ∧ i ∈ lookupInterior g b) := by
  have hmem : ∀ c : ℕ, i ∈ lookupInterior g c ↔
      i < g.total ∧ (1 : ℚ)/2 < g.val i ∧ tagOfVal (g.val i) = (c : Int) + 1 := by
    intro c
    unfold lookupInterior
    rw [foldl_fill_eq]
    simp [List.mem_filter, List.mem_range, interiorAccept,
      Bool.and_eq_true, decide_eq_true_eq]
  refine ⟨hmem a, ?_⟩
  unfold oCollectMatch
  simp only [List.any_eq_true, List.mem_range, beq_iff_eq]
  constructor
  · rintro ⟨b, hb, q, hq, rfl⟩
    exact ⟨b, hb, hq⟩
  · rintro ⟨b, hb, hq⟩
    exact ⟨b, hb, i, hq, rfl⟩

theorem oAllocNObjectsLocal_zero (g : ObjGrid) (h : ∀ i : ℕ, g.val i ≤ 0) :
    oAllocNObjectsLocal g = 0 := by
  unfold oAllocNObjectsLocal
  generalize List.range g.total = l
  induction l with
  | nil => rfl
  | cons x xs ih =>
    rw [List.foldl_cons]
    have hx : ¬ (((0 : Int) : ℚ) < g.val x) := by
      have := h x
      push_cast
      linarith
    rw [if_neg hx]
    exact ih

theorem oAllocNObjects_zero (gs : List ObjGrid)
    (h : ∀ g ∈ gs, ∀ i : ℕ, g.val i ≤ 0) : oAllocNObjects gs = 0 := by
  unfold oAllocNObjects
  induction gs with
  | nil => rfl
  | cons g rest ih =>
    rw [List.foldl_cons, oAllocNObjectsLocal_zero g (h g (List.mem_cons_self _ _))]
    simp only [max_self]
    exact ih (fun g2 hg2 i => h g2 (List.mem_cons_of_mem _ hg2) i)

/-- C7 counterexample: with an all-zero object map the computed object count
is 0 and `oAlloc` does not fail — it proceeds and returns the (empty) lookup
tables rather than a CONFIG error. -/
theorem oAlloc_zero_objects_no_config_error :
    oAllocNObjects [gz] = 0 ∧ oAllocModel [gz] = Except.ok (0, [], []) :=
  ⟨rfl, rfl⟩

/-- C7 (amended): when the computed object count is 0 (nonpositive map on
every rank), `oAlloc` raises no CONFIG error: it stores `nObjects = 0` and
proceeds to build the lookup tables. -/
theorem oAlloc_zero_objects_proceeds (gs : List ObjGrid)
    (h : ∀ g ∈ gs, ∀ i : ℕ, g.val i ≤ 0) :
    oAllocNObjects gs = 0 ∧ (oAllocModel gs).toBool = true := by
  refine ⟨oAllocNObjects_zero gs h, ?_⟩
  cases gs <;> rfl

/-- Witness for the amended C7 theorem at the all-zero map `gz`. -/
theorem oAlloc_zero_objects_proceeds_w :
    oAllocNObjects [gz] = 0 ∧ (oAllocModel [gz]).toBool = true :=
  oAlloc_zero_objects_proceeds [gz] (by
    intro g hg i
    simp only [List.mem_singleton] at hg
    subst hg
    simp [gz])

/-- C1 (code bug): with two objects of one surface node each on one rank
(`c1cfg`: surface lookup `[5, 7]`, offsets `SO = [0,1,2]`), the charge grid
after the full capacitance loop still holds 1 at node 7: the test charge
placed for the second object at `lookupSurf[SO[1]+0] = 7` (line 256) is
"reset" at `lookupSurf[0] = 5` (line 269, the offset `SO[a]` is missing), so
it is never cleared — while the claim requires `rho` to be zero everywhere
after each column's reset. -/
theorem oComputeCap_reset_misses_offset_block :
    oComputeCapLoop c1cfg 2 (fun _ => 0) 7 = 1 ∧
    oComputeCapLoop c1cfg 2 (fun _ => 0) 5 = 0 := by
  refine ⟨by decide, by decide⟩

/-- C3 (code bug): with two objects of one surface node each on one rank,
for the second object (index `a = 1`) the code computes `invNrSurfNod` from
`nodCorGlob[(a+1)*size] = nodCorGlob[2] = 0` — the cumulative start of the
object's per-rank table — instead of the surface total
`nodCorGlob[a*(size+1)+size] = nodCorGlob[3] = 1`; the deposit on its surface
node 7 is therefore `(-1) · (1/0)` rather than the claimed
`collectedCharge/T = -1` (in the rational model `1/0 = 0`, so the deposit is
0; in the C doubles it is `-inf` — either way not `-1`). -/
theorem oCollectCharge_wrong_total_index :
    c3nod ((1 + 1) * 1) = 0 ∧ c3nod (1 * (1 + 1) + 1) = 1 ∧
    invNrSurfNod c3nod 1 1 = 0 ∧
    oCollectDeposit c3surf (fun a => a) c3nod 1 2 c3charge (fun _ => 0) 7 = 0 := by
  refine ⟨by decide, by decide, by with_unfolding_all decide,
    by with_unfolding_all decide⟩

/-- C6 (code bug): the capacitance store is indexed by `a·Tₐ²`, not by the
concatenated offset `Σ_{b<a} T_b²`.  With totals `T = (1,3)` (table
`c6nodA`), object 2's block is written at flat indices 9..17 while only
`(1+3)² = 16` doubles are allocated — the write at relative index 8 lands at
17, out of bounds.  With totals `T = (2,1)` (table `c6nodB`), object 2's
block coincides with cell 1 of object 1's block — the blocks are not
disjoint.  `oApplyCapacitanceMatrix` does read with the same base formula the
writer used. -/
theorem capStore_blocks_overlap_and_overflow :
    capStoreWriteIdx c6nodA 1 1 8 = 17 ∧ capStoreAllocSize c6nodA 1 2 = 16 ∧
    capStoreWriteIdx c6nodB 1 1 0 = capStoreWriteIdx c6nodB 1 0 1 ∧
    capStoreReadIdx c6nodB 1 1 0 0 = capStoreWriteIdx c6nodB 1 1 0 := by
  refine ⟨by decide, by decide, by decide, by decide⟩

theorem cap_g_le (g : ℕ → ℕ) :
    ∀ n : ℕ, (∀ r, r < n → g r ≤ g (r + 1)) → ∀ m, m ≤ n → g m ≤ g n := by
  intro n
  induction n with
  | zero =>
    intro _ m hm
    rw [Nat.le_zero.mp hm]
  | succ n ih =>
    intro h m hm
    rcases Nat.lt_succ_iff_lt_or_eq.mp (Nat.lt_succ_of_le hm) with h1 | h1
    · exact le_trans (ih (fun r hr => h r (Nat.lt_succ_of_lt hr)) m (by omega))
        (h n (Nat.lt_succ_self n))
    · rw [h1]
  
theorem sum_Ico_partition {β : Type} [AddCommMonoid β] (g : ℕ → ℕ) (f : ℕ → β) :
    ∀ P : ℕ, (∀ r, r < P → g r ≤ g (r + 1)) →
      ∑ r in Finset.range P, ∑ j in Finset.Ico (g r) (g (r + 1)), f j =
        ∑ j in Finset.Ico (g 0) (g P), f j := by
  intro P
  induction P with
  | zero => intro _; simp
  | succ P ih =>
    intro h
    rw [Finset.sum_range_succ, ih (fun r hr => h r (Nat.lt_succ_of_lt hr))]
    exact Finset.sum_Ico_consecutive f
      (cap_g_le g P (fun r hr => h r (Nat.lt_succ_of_lt hr)) 0 (Nat.zero_le P))
      (h P (Nat.lt_succ_self P))

theorem oDeltaPhi_eq {α : Type} [Field α] (K : ℕ → ℕ → α) (phiS : ℕ → α)
    (T P : ℕ) (S : α) (g : ℕ → ℕ)
    (hmono : ∀ r, r < P → g r ≤ g (r + 1)) (hg0 : g 0 = 0)
    (j : ℕ) (hj : j < g P) :
    oDeltaPhi K phiS T P S g j = capPhiC K phiS T P S g - phiS j := by
  unfold oDeltaPhi
  have h1 : ∀ r, (if j ∈ Finset.Ico (g r) (g (r + 1))
      then capPhiC K phiS T P S g - phiS j else 0) =
      ∑ x in Finset.Ico (g r) (g (r + 1)),
        if x = j then capPhiC K phiS T P S g - phiS j else 0 := by
    intro r
    exact (Finset.sum_ite_eq' (Finset.Ico (g r) (g (r + 1))) j
      (fun _ => capPhiC K phiS T P S g - phiS j)).symm
  rw [Finset.sum_congr rfl (fun r _ => h1 r)]
  rw [sum_Ico_partition g _ P hmono]
  rw [Finset.sum_ite_eq' (Finset.Ico (g 0) (g P)) j
    (fun _ => capPhiC K phiS T P S g - phiS j)]
  rw [if_pos (Finset.mem_Ico.mpr ⟨by omega, hj⟩)]

theorem oRhoCorr_sum_eq_zero {α : Type} [Field α] (K : ℕ → ℕ → α) (phiS : ℕ → α)
    (T P : ℕ) (S : α) (g : ℕ → ℕ)
    (hg0 : g 0 = 0) (hgP : g P = T) (hmono : ∀ r, r < P → g r ≤ g (r + 1))
    (hS : S * (∑ j in Finset.range T, ∑ i in Finset.range T, K j i) = 1) :
    ∑ i in Finset.range T, oRhoCorr K phiS T P S g i = 0 := by
  have h1 : ∑ i in Finset.range T, oRhoCorr K phiS T P S g i =
      ∑ r in Finset.range P, ∑ j in Finset.Ico (g r) (g (r + 1)),
        (∑ i in Finset.range T, K j i) * oDeltaPhi K phiS T P S g j := by
    unfold oRhoCorr
    rw [Finset.sum_comm]
    refine Finset.sum_congr rfl (fun r _ => ?_)
    rw [Finset.sum_comm]
    exact Finset.sum_congr rfl (fun j _ => (Finset.sum_mul _ _ _).symm)
  have h2 : ∑ r in Finset.range P, ∑ j in Finset.Ico (g r) (g (r + 1)),
      (∑ i in Finset.range T, K j i) * oDeltaPhi K phiS T P S g j =
      ∑ j in Finset.range T,
        (∑ i in Finset.range T, K j i) * oDeltaPhi K phiS T P S g j := by
    rw [sum_Ico_partition g _ P hmono, hg0, hgP, Finset.range_eq_Ico]
  have h3 : ∑ j in Finset.range T,
      (∑ i in Finset.range T, K j i) * oDeltaPhi K phiS T P S g j =
      ∑ j in Finset.range T,
        (∑ i in Finset.range T, K j i) * (capPhiC K phiS T P S g - phiS j) := by
    refine Finset.sum_congr rfl (fun j hj => ?_)
    rw [oDeltaPhi_eq K phiS T P S g hmono hg0 j
      (by rw [hgP]; exact Finset.mem_range.mp hj)]
  have hX : capPhiC K phiS T P S g =
      S * ∑ j in Finset.range T, (∑ i in Finset.range T, K j i) * phiS j := by
    unfold capPhiC
    rw [← Finset.mul_sum]
    congr 1
    unfold capPhiSumLocal
    rw [Finset.sum_comm]
    have h5 : ∀ i, (∑ r in Finset.range P,
        ∑ j in Finset.Ico (g r) (g (r + 1)), K j i * phiS j) =
        ∑ j in Finset.range T, K j i * phiS j := by
      intro i
      rw [sum_Ico_partition g _ P hmono, hg0, hgP, Finset.range_eq_Ico]
    rw [Finset.sum_congr rfl (fun i _ => h5 i)]
    rw [Finset.sum_comm]
    exact Finset.sum_congr rfl (fun j _ => (Finset.sum_mul _ _ _).symm)
  have h4 : ∑ j in Finset.range T,
      (∑ i in Finset.range T, K j i) * (capPhiC K phiS T P S g - phiS j) =
      capPhiC K phiS T P S g * (∑ j in Finset.range T, ∑ i in Finset.range T, K j i) -
        ∑ j in Finset.range T, (∑ i in Finset.range T, K j i) * phiS j := by
    have := Finset.sum_congr rfl
      (fun j (_ : j ∈ Finset.range T) => mul_sub (∑ i in Finset.range T, K j i)
        (capPhiC K phiS T P S g) (phiS j))
    rw [this, Finset.sum_sub_distrib]
    congr 1
    rw [← Finset.sum_mul]
    exact mul_comm _ _
  rw [h1, h2, h3, h4, hX]
  have hfin : S * (∑ j in Finset.range T, (∑ i in Finset.range T, K j i) * phiS j) *
      (∑ j in Finset.range T, ∑ i in Finset.range T, K j i) =
      ∑ j in Finset.range T, (∑ i in Finset.range T, K j i) * phiS j := by
    calc S * (∑ j in Finset.range T, (∑ i in Finset.range T, K j i) * phiS j) *
        (∑ j in Finset.range T, ∑ i in Finset.range T, K j i) =
        (∑ j in Finset.range T, (∑ i in Finset.range T, K j i) * phiS j) *
          (S * (∑ j in Finset.range T, ∑ i in Finset.range T, K j i)) := by ring
      _ = (∑ j in Finset.range T, (∑ i in Finset.range T, K j i) * phiS j) * 1 := by
        rw [hS]
      _ = ∑ j in Finset.range T, (∑ i in Finset.range T, K j i) * phiS j := mul_one _
  rw [hfin, sub_self]

theorem range'_map_sum {β : Type} [AddCommMonoid β] (v : ℕ → β) :
    ∀ (n s : ℕ), ((List.range' s n).map v).sum = ∑ j in Finset.Ico s (s + n), v j := by
  intro n
  induction n with
  | zero => intro s; simp
  | succ n ih =>
    intro s
    show ((s :: List.range' (s + 1) n).map v).sum = _
    rw [List.map_cons, List.sum_cons, ih (s + 1)]
    rw [Finset.sum_eq_sum_Ico_succ_bot (by omega : s < s + (n + 1)) v]
    have hb : s + 1 + n = s + (n + 1) := by omega
    rw [hb]

theorem foldl_update_sum {α : Type} [Field α] (tgt : ℕ → ℕ) (v : ℕ → α) (M : ℕ) :
    ∀ (l : List ℕ) (ρ : ℕ → α), (∀ j ∈ l, tgt j < M) →
      ∑ n in Finset.range M,
        (l.foldl (fun ρ2 j => Function.update ρ2 (tgt j) (ρ2 (tgt j) + v j)) ρ) n =
      (∑ n in Finset.range M, ρ n) + (l.map v).sum := by
  intro l
  induction l with
  | nil => intro ρ _; simp
  | cons x xs ih =>
    intro ρ h
    rw [List.foldl_cons]
    rw [ih _ (fun j hj => h j (List.mem_cons_of_mem _ hj))]
    have hmem : tgt x ∈ Finset.range M :=
      Finset.mem_range.mpr (h x (List.mem_cons_self _ _))
    have hupd : ∑ n in Finset.range M,
        Function.update ρ (tgt x) (ρ (tgt x) + v x) n =
        (∑ n in Finset.range M, ρ n) + v x := by
      rw [Finset.sum_update_of_mem hmem]
      have herase : ∑ n in Finset.range M, ρ n =
          ρ (tgt x) + ∑ n in (Finset.range M).erase (tgt x), ρ n :=
        (Finset.add_sum_erase _ ρ hmem).symm
      rw [Finset.erase_eq] at herase
      rw [herase]
      ring
    rw [hupd, List.map_cons, List.sum_cons]
    ring

theorem foldl_update_frame {α : Type} (tgt : ℕ → ℕ) (w : (ℕ → α) → ℕ → α) (n : ℕ) :
    ∀ (l : List ℕ) (ρ : ℕ → α), (∀ j ∈ l, tgt j ≠ n) →
      (l.foldl (fun ρ2 j => Function.update ρ2 (tgt j) (w ρ2 j)) ρ) n = ρ n := by
  intro l
  induction l with
  | nil => intro ρ _; rfl
  | cons x xs ih =>
    intro ρ h
    rw [List.foldl_cons]
    rw [ih _ (fun j hj => h j (List.mem_cons_of_mem _ hj))]
    exact Function.update_noteq (Ne.symm (h x (List.mem_cons_self _ _))) _ ρ

theorem capApplyCorr_sum {α : Type} [Field α] (tgt : ℕ → ℕ) (v : ℕ → α)
    (g : ℕ → ℕ) (M : ℕ) :
    ∀ (P : ℕ) (ρ : ℕ → α),
      (∀ r, r < P → ∀ j, g r ≤ j → j < g (r + 1) → tgt j < M) →
      ∑ n in Finset.range M, capApplyCorr tgt v g P ρ n =
        (∑ n in Finset.range M, ρ n) +
          ∑ r in Finset.range P, ∑ j in Finset.Ico (g r) (g (r + 1)), v j := by
  intro P
  induction P with
  | zero => intro ρ _; simp [capApplyCorr]
  | succ P ih =>
    intro ρ h
    unfold capApplyCorr
    rw [List.range_succ, List.foldl_append, List.foldl_cons, List.foldl_nil]
    have hinner : ∀ j ∈ List.range' (g P) (g (P + 1) - g P), tgt j < M := by
      intro j hj
      rcases List.mem_range'_1.mp hj with ⟨hj1, hj2⟩
      exact h P (Nat.lt_succ_self P) j hj1 (by omega)
    rw [foldl_update_sum tgt v M _ _ hinner]
    have hprev := ih ρ (fun r hr => h r (Nat.lt_succ_of_lt hr))
    unfold capApplyCorr at hprev
    rw [hprev]
    rw [range'_map_sum v _ _]
    rw [Finset.sum_range_succ]
    have hIco : ∑ j in Finset.Ico (g P) (g P + (g (P + 1) - g P)), v j =
        ∑ j in Finset.Ico (g P) (g (P + 1)), v j := by
      rcases le_or_lt (g P) (g (P + 1)) with hle | hlt
      · rw [Nat.add_sub_cancel' hle]
      · rw [Nat.sub_eq_zero_of_le (le_of_lt hlt)]
        rw [Finset.Ico_eq_empty (by omega), Finset.Ico_eq_empty (by omega)]
    rw [hIco]
    ring

/-- C4: in exact arithmetic the per-object charge correction conserves total
charge.  With `K` the stored inverse capacitance matrix of an object, `T` its
global surface count, the per-rank ranges given by a cumulative offset table
`g` partitioning `[0, T)`, and the stored scalar `S` satisfying
`S · ΣK = 1` (the code stores `S = 1/ΣK`), the all-reduced corrections
`rhoCorr` sum to zero over the `T` global surface indices, and adding them at
the surface nodes (`capApplyCorr`) leaves the total charge
`Σ_{n<M} rho[n]` unchanged, for any potential `phiS` and any charge grid. -/
theorem applyCap_charge_conserved {α : Type} [Field α] (K : ℕ → ℕ → α)
    (phiS : ℕ → α) (T P : ℕ) (S : α) (g : ℕ → ℕ) (tgt : ℕ → ℕ) (M : ℕ)
    (ρ : ℕ → α)
    (hg0 : g 0 = 0) (hgP : g P = T) (hmono : ∀ r, r < P → g r ≤ g (r + 1))
    (hS : S * (∑ j in Finset.range T, ∑ i in Finset.range T, K j i) = 1)
    (htgt : ∀ j, j < T → tgt j < M) :
    (∑ i in Finset.range T, oRhoCorr K phiS T P S g i = 0) ∧
    (∑ n in Finset.range M,
        capApplyCorr tgt (oRhoCorr K phiS T P S g) g P ρ n =
      ∑ n in Finset.range M, ρ n) := by
  have hzero := oRhoCorr_sum_eq_zero K phiS T P S g hg0 hgP hmono hS
  refine ⟨hzero, ?_⟩
  have hbound : ∀ r, r < P → ∀ j, g r ≤ j → j < g (r + 1) → tgt j < M := by
    intro r hr j _ hj2
    have hchain : g (r + 1) ≤ g P := cap_g_le g P hmono (r + 1) hr
    exact htgt j (by omega)
  rw [capApplyCorr_sum tgt _ g M P ρ hbound]
  have hpart : ∑ r in Finset.range P, ∑ j in Finset.Ico (g r) (g (r + 1)),
      oRhoCorr K phiS T P S g j =
      ∑ j in Finset.range T, oRhoCorr K phiS T P S g j := by
    rw [sum_Ico_partition g _ P hmono, hg0, hgP, Finset.range_eq_Ico]
  rw [hpart, hzero, add_zero]

/-- Witness for C4 at a concrete single-rank, single-surface-node object over
`ℚ`. -/
theorem applyCap_charge_conserved_w :
    (∑ i in Finset.range 1,
        oRhoCorr (fun _ _ => (1 : ℚ)) (fun _ => 0) 1 1 1 (fun r => r) i = 0) ∧
    (∑ n in Finset.range 1,
        capApplyCorr (fun j => j)
          (oRhoCorr (fun _ _ => (1 : ℚ)) (fun _ => 0) 1 1 1 (fun r => r))
          (fun r => r) 1 (fun _ => (0 : ℚ)) n =
      ∑ n in Finset.range 1, (fun _ => (0 : ℚ)) n) :=
  applyCap_charge_conserved (fun _ _ => (1 : ℚ)) (fun _ => 0) 1 1 1 (fun r => r)
    (fun j => j) 1 (fun _ => 0) rfl rfl (fun r _ => Nat.le_succ r)
    (by simp) (fun j hj => hj)

theorem foldl_objs_frame {α : Type} [Field α] (c : ApplyCfg α)
    (phiS : ℕ → ℕ → α) (n : ℕ) :
    ∀ (l : List ℕ) (ρ : ℕ → α),
      (∀ a ∈ l, ∀ j, c.g a c.rank ≤ j → j < c.g a (c.rank + 1) →
        c.target a j ≠ n) →
      (l.foldl (fun ρ a =>
        (List.range' (c.g a c.rank) (c.g a (c.rank + 1) - c.g a c.rank)).foldl
          (fun ρ2 j => Function.update ρ2 (c.target a j)
            (ρ2 (c.target a j) +
              oRhoCorr (c.K a) (phiS a) (c.T a) c.P (c.capMatrixSum a) (c.g a) j)) ρ)
        ρ) n = ρ n := by
  intro l
  induction l with
  | nil => intro ρ _; rfl
  | cons a l ih =>
    intro ρ h
    rw [List.foldl_cons]
    rw [ih _ (fun b hb => h b (List.mem_cons_of_mem _ hb))]
    refine foldl_update_frame (c.target a) _ n _ ρ ?_
    intro j hj
    rcases List.mem_range'_1.mp hj with ⟨hj1, hj2⟩
    exact h a (List.mem_cons_self _ _) j hj1 (by omega)

/-- C10: `oApplyCapacitanceMatrix` leaves the potential grid unchanged (it is
only read) and modifies the charge grid only at the node indices listed in
this rank's Surface Lookup blocks: any node `n` different from every
`lookupSurf[SO[a] + j - beginIndex]` with `j` in this rank's range of some
object `a` keeps its charge value. -/
theorem applyCapMatrix_frame {α : Type} [Field α] (c : ApplyCfg α)
    (phiS : ℕ → ℕ → α) (st : OState α) (n : ℕ)
    (h : ∀ a, a < c.N → ∀ j, c.g a c.rank ≤ j → j < c.g a (c.rank + 1) →
      c.target a j ≠ n) :
    (oApplyCapacitanceMatrixModel c phiS st).phi = st.phi ∧
    (oApplyCapacitanceMatrixModel c phiS st).rho n = st.rho n := by
  refine ⟨rfl, ?_⟩
  exact foldl_objs_frame c phiS n (List.range c.N) st.rho
    (fun a ha => h a (List.mem_range.mp ha))

/-- Witness for C10 at `c10cfg`: the call writes `rho` at surface node 0 of
the single object, and the theorem's frame hypothesis is discharged at the
untouched node 5 (the only target is node 0, which differs from 5), so node
5's charge and the whole potential grid are unchanged. -/
theorem applyCapMatrix_frame_w :
    (oApplyCapacitanceMatrixModel c10cfg (fun _ _ => 0) st10).phi = st10.phi ∧
    (oApplyCapacitanceMatrixModel c10cfg (fun _ _ => 0) st10).rho 5 = st10.rho 5 :=
  applyCapMatrix_frame c10cfg (fun _ _ => 0) st10 5 (by
    intro a ha j hj1 hj2
    have ha0 : a = 0 := Nat.lt_one_iff.mp ha
    subst ha0
    have hg : c10cfg.g 0 (c10cfg.rank + 1) = 1 := rfl
    rw [hg] at hj2
    have hj0 : j = 0 := Nat.lt_one_iff.mp hj2
    subst hj0
    decide)
